import Mathlib

/-!
# Verification of the prediction bridge `src/solver/coregistration.cc`

The file embeds the JNI entry point
`Java_com_inventale_coregistration_survey_providers_fm_XLearnProvider_predict`
(called `predict` below) and the comparator `sortDescBySecond`.

* `jint` values are `Int`; the conversions to `uint32` are explicit (`uint32`).
* a `float` score is a `Score S`: a number of a linearly ordered type `S`, or NaN, with
  the comparisons of C++ (`Score.gt`, `Score.ge`, `Score.le` answer false on NaN).
* raw pointer reads (`taskArray[i]`, ...) are checked reads returning `Except`.
* `std::partial_sort` is a parameter constrained by the contract of the C++
  standard (`StdPartialSort`), whose ordering promise needs a comparator that is a
  strict weak ordering on the elements; `partial_sort` is an executable instance.
-/

namespace XLearn

/-! ## Faults and checked reads -/

/-- Ways in which the C++ code leaves defined behaviour or aborts. -/
inductive Fault where
  /-- a read through a raw pointer or `operator[]` past the end of the array -/
  | outOfBounds
  /-- call of `std::partial_sort` with `middle` outside `[first, last]` -/
  | invalidRange
  /-- call of `DMatrix::AddNode` on a row index that has not been added -/
  | rowCheck
  /-- call of `Solver::StartWork` without a bound dataset -/
  | inference
  deriving DecidableEq, Repr

/-- Checked read `a[i]`. -/
def index {α : Type} (a : List α) (i : Nat) : Except Fault α :=
  match a[i]? with
  | some x => .ok x
  | none => .error .outOfBounds

/-- Counting loop `for (i = 0; i < n; i++) body(i)`, stopping at the first fault. -/
def forLoop {σ : Type} (n : Nat) (body : Nat → σ → Except Fault σ) (init : σ) :
    Except Fault σ :=
  match n with
  | 0 => .ok init
  | k + 1 =>
    match forLoop k body init with
    | .ok s => body k s
    | .error e => .error e

/-- Conversion of a `jint` to `uint32` (reduction modulo `2^32`). -/
def uint32 (x : Int) : Nat := (x % 4294967296).toNat

/-! ## Scores -/

/-- A C++ `float` score: a number of the linearly ordered type `S` (the two zeros are
one number, the infinities are the ends of `S` if it has them), or NaN. -/
inductive Score (S : Type) where
  | num (x : S)
  | nan
  deriving DecidableEq, Repr

namespace Score

/-- The comparison `a > b` of C++ on `float`: false as soon as one side is NaN. -/
def gt {S : Type} [LinearOrder S] : Score S → Score S → Bool
  | num x, num y => decide (x > y)
  | _, _ => false

/-- The comparison `a >= b` of C++ on `float`: false as soon as one side is NaN. -/
def ge {S : Type} [LinearOrder S] : Score S → Score S → Bool
  | num x, num y => decide (x ≥ y)
  | _, _ => false

/-- The comparison `a <= b` of C++ on `float`: false as soon as one side is NaN. -/
def le {S : Type} [LinearOrder S] : Score S → Score S → Bool
  | num x, num y => decide (x ≤ y)
  | _, _ => false

end Score

/-! ## The feature matrix -/

/-- Modelled from the spec: a node of `xLearn::DMatrix` (the class is declared outside
the translated file). A node is a (feature index, feature value) pair; the index is a
`uint32`, the value is the integer handed to `AddNode`. -/
structure Node where
  feat_id : Nat
  feat_val : Int
  deriving DecidableEq, Repr

/-- Modelled from the spec: `xLearn::DMatrix`, an ordered sequence of rows, each an
ordered sequence of nodes, plus the flag telling whether rows carry labels. -/
structure DMatrix where
  row : List (List Node)
  has_label : Bool
  deriving DecidableEq, Repr

namespace DMatrix

/-- Modelled from the spec: the freshly constructed `xLearn::DMatrix matrix;`. -/
def new : DMatrix := { row := [], has_label := true }

/-- Modelled from the spec: `DMatrix::Reset`, which drops every row. -/
def Reset (m : DMatrix) : DMatrix := { row := [], has_label := m.has_label }

/-- Modelled from the spec: `DMatrix::AddRow`, which appends an empty row. -/
def AddRow (m : DMatrix) : DMatrix :=
  { row := m.row ++ [[]], has_label := m.has_label }

/-- Modelled from the spec: `DMatrix::AddNode(row_id, feat_id, feat_val)`, which appends
a node to row `row_id`; the row must exist. -/
def AddNode (m : DMatrix) (row_id : Nat) (feat_id : Nat) (feat_val : Int) :
    Except Fault DMatrix :=
  match m.row[row_id]? with
  | some r =>
    .ok { row := m.row.set row_id (r ++ [{ feat_id := feat_id, feat_val := feat_val }]),
          has_label := m.has_label }
  | none => .error .rowCheck

end DMatrix

/-- State of the matrix-building loop of `predict`: the matrix and `row_id`. -/
structure BuildState where
  matrix : DMatrix
  row_id : Nat
  deriving DecidableEq, Repr

/-- Body of the inner loop of `predict` (lines 108-110) for fact position `j`. -/
def addFact (keysArray valuesArray : List Int) (row_id : Nat) (j : Nat) (m : DMatrix) :
    Except Fault DMatrix :=
  match index keysArray j with
  | .error e => .error e
  | .ok k =>
    match index valuesArray j with
    | .error e => .error e
    | .ok v => m.AddNode row_id (uint32 k) (uint32 v)

/-- Inner loop of `predict` (lines 107-111): one node per fact on row `row_id`. -/
def addFacts (keysArray valuesArray : List Int) (facts_size : Nat) (row_id : Nat)
    (m : DMatrix) : Except Fault DMatrix :=
  forLoop facts_size (addFact keysArray valuesArray row_id) m

/-- Body of the outer loop of `predict` (lines 104-112) for task position `i`. -/
def addTask (taskArray keysArray valuesArray : List Int) (facts_size : Nat) (i : Nat)
    (s : BuildState) : Except Fault BuildState :=
  let m := s.matrix.AddRow
  match index taskArray i with
  | .error e => .error e
  | .ok t =>
    match m.AddNode s.row_id (uint32 t) 1 with
    | .error e => .error e
    | .ok m1 =>
      match addFacts keysArray valuesArray facts_size s.row_id m1 with
      | .error e => .error e
      | .ok m2 => .ok { matrix := m2, row_id := (s.row_id + 1) % 4294967296 }

/-- Matrix construction of `predict` (lines 93-113): `tasks_size` and `facts_size` are
the lengths of `tasks` and `keys`; the length of `values` is never read. -/
def buildMatrix (taskArray keysArray valuesArray : List Int) : Except Fault DMatrix :=
  let tasks_size := taskArray.length
  let facts_size := keysArray.length
  let matrix : DMatrix := { row := DMatrix.new.Reset.row, has_label := false }
  match forLoop tasks_size (addTask taskArray keysArray valuesArray facts_size)
      { matrix := matrix, row_id := 0 } with
  | .ok s => .ok s.matrix
  | .error e => .error e

/-- Closed form of the fact nodes of a row: one node per (key, value) pair, in order,
both converted to `uint32`. -/
def factNodes (keys values : List Int) : List Node :=
  (keys.zip values).map (fun kv => { feat_id := uint32 kv.1, feat_val := uint32 kv.2 })

/-- Closed form of the row of task `t`: its one-hot node, then the fact nodes. -/
def taskRow (keys values : List Int) (t : Int) : List Node :=
  { feat_id := uint32 t, feat_val := 1 } :: factNodes keys values

/-! ## The scoring engine -/

/-- Modelled from the spec: `xLearn::Solver` as seen by `predict`. `score` is the
pretrained model (any function from matrices to score sequences), `dataset` the matrix
bound by `InitializeDataset`, `result` the scores of the last `StartWork`. -/
structure Solver (S : Type) where
  score : DMatrix → List S
  dataset : Option DMatrix
  result : List S

namespace Solver

/-- Modelled from the spec: `Solver::InitializeDataset`, binding a matrix for the next
scoring pass. -/
def InitializeDataset {S : Type} (s : Solver S) (m : DMatrix) : Solver S :=
  { score := s.score, dataset := some m, result := s.result }

/-- Modelled from the spec: `Solver::StartWork`, scoring the bound matrix. -/
def StartWork {S : Type} (s : Solver S) : Except Fault (Solver S) :=
  match s.dataset with
  | some m => .ok { score := s.score, dataset := s.dataset, result := s.score m }
  | none => .error .inference

/-- Modelled from the spec: `Solver::GetResult`. -/
def GetResult {S : Type} (s : Solver S) : List S := s.result

end Solver

/-- A stub engine in its initial state, answering the scores 0.1, 0.9, 0.5 whatever
the matrix (the end-to-end scenario of the specification). -/
def stubSolver : Solver (Score ℚ) :=
  { score := fun _ => [.num (1 / 10), .num (9 / 10), .num (1 / 2)], dataset := none,
    result := [] }

/-! ## Top-K selection -/

/-- The comparator `sortDescBySecond` on `std::pair<int, float>`: `a` goes before `b`
iff `a.second > b.second`, a comparison of two `float` values. -/
def sortDescBySecond {S : Type} [LinearOrder S] (a b : Int × Score S) : Bool :=
  Score.gt a.2 b.2

/-- Body of the pairing loop of `predict` (line 125) for position `i`. -/
def pairScore {S : Type} (taskArray : List Int) (result : List S) (i : Nat)
    (taskToResult : List (Int × S)) : Except Fault (List (Int × S)) :=
  match index taskArray i with
  | .error e => .error e
  | .ok t =>
    match index result i with
    | .error e => .error e
    | .ok r => .ok (taskToResult ++ [(t, r)])

/-- Pairing loop of `predict` (lines 123-126): one pair per score, the task id read
from `taskArray` at the same position. -/
def pairScores {S : Type} (taskArray : List Int) (result : List S) :
    Except Fault (List (Int × S)) :=
  forLoop result.length (pairScore taskArray result) []

/-- Line 127: `topSize = jtopSize > tasks_size ? tasks_size : jtopSize`. -/
def topSize (jtopSize : Int) (tasks_size : Nat) : Int :=
  if jtopSize > (tasks_size : Int) then (tasks_size : Int) else jtopSize

/-- The requirement of the C++ standard on a comparator, on the elements of `l`: `comp`
is irreflexive and transitive, and so is being unordered by `comp` (a strict weak
ordering). -/
def StrictWeakOn {α : Type} (comp : α → α → Bool) (l : List α) : Prop :=
  (∀ a ∈ l, comp a a = false) ∧
  (∀ a ∈ l, ∀ b ∈ l, ∀ c ∈ l, comp a b = true → comp b c = true → comp a c = true) ∧
  (∀ a ∈ l, ∀ b ∈ l, ∀ c ∈ l, comp a b = false → comp b a = false →
    comp b c = false → comp c b = false → comp a c = false ∧ comp c a = false)

/-- Contract of `std::partial_sort(first, first + middle, last, comp)` on a sequence,
for `middle` inside the range: the output is a rearrangement of the input (the
algorithm only moves elements); when `comp` is a strict weak ordering on the elements,
the first `middle` elements are sorted with respect to `comp` and no later element
goes before one of them. The order of the later elements is left open, and so is the
order of everything when `comp` is not a strict weak ordering. -/
def StdPartialSort {α : Type} (comp : α → α → Bool) (psort : List α → Nat → List α) :
    Prop :=
  ∀ (l : List α) (middle : Nat), middle ≤ l.length →
    (psort l middle).Perm l ∧
    (StrictWeakOn comp l →
      ((psort l middle).take middle).Pairwise (fun a b => comp b a = false) ∧
      ∀ a ∈ (psort l middle).take middle, ∀ b ∈ (psort l middle).drop middle,
        comp b a = false)

/-- Line 128: the call of `std::partial_sort`; a `middle` before `begin()` or past
`end()` is undefined behaviour. -/
def sortStep {α : Type} (psort : List α → Nat → List α) (taskToResult : List α)
    (top : Int) : Except Fault (List α) :=
  if 0 ≤ top ∧ top ≤ (taskToResult.length : Int) then
    .ok (psort taskToResult top.toNat)
  else .error .invalidRange

/-- Body of the output loop of `predict` (lines 135-137): `out[i]` is built from
`taskToResult[i]`. -/
def outputElement {α : Type} (taskToResult : List α) (i : Nat) (out : List α) :
    Except Fault (List α) :=
  match index taskToResult i with
  | .error e => .error e
  | .ok element => .ok (out ++ [element])

/-- Output loop of `predict` (lines 134-138), for `i < topSize`. -/
def outputLoop {α : Type} (taskToResult : List α) (top : Int) : Except Fault (List α) :=
  forLoop top.toNat (outputElement taskToResult) []

/-- Selection step of `predict` (lines 122-138, with the result constructor found):
pair, clamp, partially sort, copy the first `topSize` pairs out. -/
def selectTopK {S : Type} (psort : List (Int × S) → Nat → List (Int × S))
    (taskArray : List Int) (result : List S) (jtopSize : Int) :
    Except Fault (List (Int × S)) :=
  match pairScores taskArray result with
  | .error e => .error e
  | .ok taskToResult =>
    match sortStep psort taskToResult (topSize jtopSize taskArray.length) with
    | .error e => .error e
    | .ok sorted => outputLoop sorted (topSize jtopSize taskArray.length)

/-- The function `predict`; the score type `S` is `Score _` (a `float`) wherever the
comparator is used. `constructorFound` tells whether `GetMethodID` finds the
constructor of the result class; the result `none` is the `nullptr` return. The solver
is passed in and returned, as it is updated through its pointer. `FindClass`,
`NewObjectArray` and `NewObject` are taken to succeed; `NewObject` receives the pair
unchanged (the promotion of the `float` score to `double` is exact). -/
def predict {S : Type} (constructorFound : Bool)
    (psort : List (Int × S) → Nat → List (Int × S)) (solver : Solver S)
    (tasks keys values : List Int) (jtopSize : Int) :
    Except Fault (Solver S × Option (List (Int × S))) :=
  match buildMatrix tasks keys values with
  | .error e => .error e
  | .ok matrix =>
    match (solver.InitializeDataset matrix).StartWork with
    | .error e => .error e
    | .ok solver1 =>
      let result := solver1.GetResult
      match pairScores tasks result with
      | .error e => .error e
      | .ok taskToResult =>
        match sortStep psort taskToResult (topSize jtopSize tasks.length) with
        | .error e => .error e
        | .ok sorted =>
          if constructorFound then
            match outputLoop sorted (topSize jtopSize tasks.length) with
            | .error e => .error e
            | .ok out => .ok (solver1, some out)
          else .ok (solver1, none)

/-! ## An executable `partial_sort` -/

/-- Takes the first element of `b :: l` that no other element goes before; returns it
with the remaining elements. -/
def selectBest {α : Type} (comp : α → α → Bool) : α → List α → α × List α
  | b, [] => (b, [])
  | b, y :: ys =>
    if comp y b then ((selectBest comp y ys).1, b :: (selectBest comp y ys).2)
    else ((selectBest comp b ys).1, y :: (selectBest comp b ys).2)

/-- Executable partial sort by repeated selection: the first `middle` positions receive
the best elements in order, the other elements follow. -/
def partial_sort {α : Type} (comp : α → α → Bool) (l : List α) (middle : Nat) : List α :=
  match middle, l with
  | 0, l => l
  | _ + 1, [] => []
  | m + 1, x :: xs =>
    (selectBest comp x xs).1 :: partial_sort comp (selectBest comp x xs).2 m

/-! ## Loops and the selection step in closed form -/

theorem index_of_lt {α : Type} (a : List α) (i : Nat) (h : i < a.length) :
    index a i = .ok (a.get ⟨i, h⟩) := by
  simp [index, List.getElem?_eq_getElem h]

theorem index_of_le {α : Type} (a : List α) (i : Nat) (h : a.length ≤ i) :
    index a i = .error .outOfBounds := by
  simp [index, List.getElem?_eq_none h]

/-- The pairing loop run for `n` rounds yields the first `n` positional pairs. -/
theorem pairLoop_eq {S : Type} (taskArray : List Int) (result : List S) (n : Nat)
    (h1 : n ≤ taskArray.length) (h2 : n ≤ result.length) :
    forLoop n (pairScore taskArray result) [] = .ok ((taskArray.zip result).take n) := by
  induction n with
  | zero => simp [forLoop]
  | succ k ih =>
    have hk1 : k < taskArray.length := h1
    have hk2 : k < result.length := h2
    have hz : k < (taskArray.zip result).length := by simp; omega
    rw [forLoop, ih (by omega) (by omega)]
    simp only [pairScore, index_of_lt _ _ hk1, index_of_lt _ _ hk2]
    rw [List.take_succ, List.getElem?_eq_getElem hz]
    simp [List.getElem_zip]

theorem pairScores_eq {S : Type} (taskArray : List Int) (result : List S)
    (h : result.length ≤ taskArray.length) :
    pairScores taskArray result = .ok (taskArray.zip result) := by
  unfold pairScores
  rw [pairLoop_eq taskArray result result.length h (le_refl _)]
  congr 1
  apply List.take_of_length_le
  simp

/-- The output loop copies the first `top` elements. -/
theorem copyLoop_eq {α : Type} (l : List α) (n : Nat) (h : n ≤ l.length) :
    forLoop n (outputElement l) [] = .ok (l.take n) := by
  induction n with
  | zero => simp [forLoop]
  | succ k ih =>
    have hk : k < l.length := h
    rw [forLoop, ih (by omega)]
    simp only [outputElement, index_of_lt _ _ hk]
    rw [List.take_succ, List.getElem?_eq_getElem hk]
    simp

theorem outputLoop_eq {α : Type} (l : List α) (top : Int) (h : top.toNat ≤ l.length) :
    outputLoop l top = .ok (l.take top.toNat) :=
  copyLoop_eq l top.toNat h

theorem topSize_toNat (K : Int) (n : Nat) (hK : 0 ≤ K) :
    (topSize K n).toNat = min K.toNat n := by
  unfold topSize
  split <;> omega

theorem topSize_nonneg (K : Int) (n : Nat) (hK : 0 ≤ K) : 0 ≤ topSize K n := by
  unfold topSize
  split <;> omega

theorem topSize_le (K : Int) (n : Nat) : topSize K n ≤ (n : Int) := by
  unfold topSize
  split <;> omega

theorem StdPartialSort.length_eq {α : Type} {comp : α → α → Bool}
    {psort : List α → Nat → List α} (hps : StdPartialSort comp psort) (l : List α)
    (m : Nat) (hm : m ≤ l.length) : (psort l m).length = l.length :=
  (hps l m hm).1.length_eq

/-- Closed form of the selection step whenever no access leaves its array. -/
theorem selectTopK_eq {S : Type} [LinearOrder S]
    (psort : List (Int × Score S) → Nat → List (Int × Score S))
    (hps : StdPartialSort sortDescBySecond psort)
    (taskArray : List Int) (result : List (Score S)) (K : Int)
    (hlen : result.length ≤ taskArray.length) (hK : 0 ≤ K)
    (htop : min K.toNat taskArray.length ≤ result.length) :
    selectTopK psort taskArray result K =
      .ok ((psort (taskArray.zip result) (min K.toNat taskArray.length)).take
        (min K.toNat taskArray.length)) := by
  have hz : (taskArray.zip result).length = result.length := by simp; omega
  have h0 := topSize_nonneg K taskArray.length hK
  have h1 := topSize_toNat K taskArray.length hK
  have hin : 0 ≤ topSize K taskArray.length ∧
      topSize K taskArray.length ≤ ((taskArray.zip result).length : Int) := by
    constructor
    · exact h0
    · rw [hz]; omega
  unfold selectTopK
  rw [pairScores_eq taskArray result hlen]
  simp only [sortStep, if_pos hin]
  rw [outputLoop_eq, h1]
  rw [h1, hps.length_eq _ _ (by omega)]
  omega

/-! ## The executable partial sort meets the contract -/

theorem StrictWeakOn.mono {α : Type} {comp : α → α → Bool} {l l' : List α}
    (h : StrictWeakOn comp l) (hsub : ∀ a ∈ l', a ∈ l) : StrictWeakOn comp l' :=
  ⟨fun a ha => h.1 a (hsub a ha),
    fun a ha b hb c hc => h.2.1 a (hsub a ha) b (hsub b hb) c (hsub c hc),
    fun a ha b hb c hc => h.2.2 a (hsub a ha) b (hsub b hb) c (hsub c hc)⟩

/-- In a strict weak ordering, not going before is transitive. -/
theorem StrictWeakOn.not_before_trans {α : Type} {comp : α → α → Bool} {l : List α}
    (h : StrictWeakOn comp l) {x y z : α} (hx : x ∈ l) (hy : y ∈ l) (hz : z ∈ l)
    (hzy : comp z y = false) (hyx : comp y x = false) : comp z x = false := by
  by_contra hcon
  have hzx : comp z x = true := by simpa using hcon
  have hyz : comp y z = false := by
    by_contra h1
    have h1 : comp y z = true := by simpa using h1
    have := h.2.1 y hy z hz x hx h1 hzx
    rw [hyx] at this
    exact Bool.noConfusion this
  have hxy : comp x y = false := by
    by_contra h1
    have h1 : comp x y = true := by simpa using h1
    have := h.2.1 z hz x hx y hy hzx h1
    rw [hzy] at this
    exact Bool.noConfusion this
  have := (h.2.2 z hz y hy x hx hzy hyz hyx hxy).1
  rw [hzx] at this
  exact Bool.noConfusion this

theorem StrictWeakOn.asymm {α : Type} {comp : α → α → Bool} {l : List α}
    (h : StrictWeakOn comp l) {x y : α} (hx : x ∈ l) (hy : y ∈ l)
    (hxy : comp x y = true) : comp y x = false := by
  by_contra hcon
  have hyx : comp y x = true := by simpa using hcon
  have := h.2.1 x hx y hy x hx hxy hyx
  rw [h.1 x hx] at this
  exact Bool.noConfusion this

theorem selectBest_perm {α : Type} (comp : α → α → Bool) (l : List α) (b : α) :
    ((selectBest comp b l).1 :: (selectBest comp b l).2).Perm (b :: l) := by
  induction l generalizing b with
  | nil => simp [selectBest]
  | cons y ys ih =>
    unfold selectBest
    split
    · exact (List.Perm.swap _ _ _).trans ((ih y).cons b)
    · exact ((List.Perm.swap _ _ _).trans ((ih b).cons y)).trans (List.Perm.swap _ _ _)

theorem selectBest_length {α : Type} (comp : α → α → Bool) (l : List α) (b : α) :
    (selectBest comp b l).2.length = l.length := by
  have h := (selectBest_perm comp l b).length_eq
  simpa using h

/-- Under a strict weak ordering nothing goes before the element `selectBest` takes. -/
theorem selectBest_best {α : Type} (comp : α → α → Bool) (L l : List α) (b : α)
    (hswo : StrictWeakOn comp L) (hb : b ∈ L) (hl : ∀ z ∈ l, z ∈ L) :
    (selectBest comp b l).1 ∈ L ∧
    comp b (selectBest comp b l).1 = false ∧
      ∀ z ∈ (selectBest comp b l).2, comp z (selectBest comp b l).1 = false := by
  induction l generalizing b with
  | nil =>
    simp only [selectBest]
    exact ⟨hb, hswo.1 b hb, fun z hz => absurd hz (List.not_mem_nil z)⟩
  | cons y ys ih =>
    have hy : y ∈ L := hl y (List.mem_cons_self _ _)
    have hys : ∀ z ∈ ys, z ∈ L := fun z hz => hl z (List.mem_cons_of_mem _ hz)
    unfold selectBest
    by_cases h : comp y b = true
    · rw [if_pos h]
      obtain ⟨h0, h1, h2⟩ := ih y hy hys
      have hby : comp b y = false := hswo.asymm hy hb h
      have hbr := hswo.not_before_trans h0 hy hb hby h1
      refine ⟨h0, hbr, ?_⟩
      intro z hz
      rcases List.mem_cons.1 hz with rfl | hz
      · exact hbr
      · exact h2 z hz
    · rw [if_neg h]
      have hyb : comp y b = false := by simpa using h
      obtain ⟨h0, h1, h2⟩ := ih b hb hys
      refine ⟨h0, h1, ?_⟩
      intro z hz
      rcases List.mem_cons.1 hz with rfl | hz
      · exact hswo.not_before_trans h0 hb hy hyb h1
      · exact h2 z hz

/-- The executable `partial_sort` meets the contract of `std::partial_sort`, for every
comparator. -/
theorem partial_sort_spec {α : Type} (comp : α → α → Bool) :
    StdPartialSort comp (partial_sort comp) := by
  intro l middle
  induction middle generalizing l with
  | zero =>
    intro _
    simp [partial_sort]
  | succ m ih =>
    intro hm
    cases l with
    | nil => simp at hm
    | cons x xs =>
      have hlen := selectBest_length comp xs x
      have hperm := selectBest_perm comp xs x
      have hm2 : m ≤ (selectBest comp x xs).2.length := by
        rw [hlen]; simpa using hm
      obtain ⟨ip, iord⟩ := ih (selectBest comp x xs).2 hm2
      simp only [partial_sort, List.take_succ_cons, List.drop_succ_cons]
      refine ⟨(ip.cons _).trans hperm, ?_⟩
      intro hswo
      obtain ⟨-, -, hb2⟩ := selectBest_best comp (x :: xs) xs x hswo
        (List.mem_cons_self _ _) (fun z hz => List.mem_cons_of_mem _ hz)
      have hrest : ∀ z ∈ (selectBest comp x xs).2, z ∈ x :: xs := fun z hz =>
        hperm.subset (List.mem_cons_of_mem _ hz)
      obtain ⟨is, ib⟩ := iord (hswo.mono hrest)
      have hsub : ∀ a ∈ partial_sort comp (selectBest comp x xs).2 m,
          comp a (selectBest comp x xs).1 = false := fun a ha => hb2 a (ip.subset ha)
      refine ⟨?_, ?_⟩
      · rw [List.pairwise_cons]
        exact ⟨fun a ha => hsub a (List.mem_of_mem_take ha), is⟩
      · intro a ha b hb
        rcases List.mem_cons.1 ha with rfl | ha
        · exact hsub b (List.mem_of_mem_drop hb)
        · exact ib a ha b hb

/-- On pairs whose scores are numbers, `sortDescBySecond` is a strict weak ordering. -/
theorem strictWeakOn_of_no_nan {S : Type} [LinearOrder S] (l : List (Int × Score S))
    (h : ∀ a ∈ l, a.2 ≠ Score.nan) : StrictWeakOn sortDescBySecond l := by
  have key : ∀ a ∈ l, ∃ x, a.2 = Score.num x := by
    intro a ha
    cases hs : a.2 with
    | num x => exact ⟨x, rfl⟩
    | nan => exact absurd hs (h a ha)
  refine ⟨?_, ?_, ?_⟩
  · intro a ha
    obtain ⟨x, hx⟩ := key a ha
    simp [sortDescBySecond, hx, Score.gt]
  · intro a ha b hb c hc
    obtain ⟨x, hx⟩ := key a ha
    obtain ⟨y, hy⟩ := key b hb
    obtain ⟨z, hz⟩ := key c hc
    simp only [sortDescBySecond, hx, hy, hz, Score.gt, decide_eq_true_eq]
    intro h1 h2
    exact lt_trans h2 h1
  · intro a ha b hb c hc
    obtain ⟨x, hx⟩ := key a ha
    obtain ⟨y, hy⟩ := key b hb
    obtain ⟨z, hz⟩ := key c hc
    simp only [sortDescBySecond, hx, hy, hz, Score.gt, decide_eq_false_iff_not, not_lt, gt_iff_lt]
    intro h1 h2 h3 h4
    exact ⟨le_trans h1 h3, le_trans h4 h2⟩

/-- Between two numbers, `sortDescBySecond a b = false` says `a.score <= b.score`. -/
theorem sortDescBySecond_false_le {S : Type} [LinearOrder S] (a b : Int × Score S)
    (ha : a.2 ≠ Score.nan) (hb : b.2 ≠ Score.nan) (h : sortDescBySecond a b = false) :
    Score.le a.2 b.2 = true ∧ Score.ge b.2 a.2 = true := by
  obtain ⟨ta, sa⟩ := a
  obtain ⟨tb, sb⟩ := b
  cases sa with
  | nan => exact absurd rfl ha
  | num x =>
    cases sb with
    | nan => exact absurd rfl hb
    | num y =>
      simp only [sortDescBySecond, Score.gt, decide_eq_false_iff_not, not_lt, gt_iff_lt] at h
      simp [Score.le, Score.ge, h]

/-- Between two different numbers, `sortDescBySecond b a = false` says
`a.score > b.score`. -/
theorem sortDescBySecond_false_gt {S : Type} [LinearOrder S] (a b : Int × Score S)
    (ha : a.2 ≠ Score.nan) (hb : b.2 ≠ Score.nan) (hne : a.2 ≠ b.2)
    (h : sortDescBySecond b a = false) : Score.gt a.2 b.2 = true := by
  obtain ⟨ta, sa⟩ := a
  obtain ⟨tb, sb⟩ := b
  cases sa with
  | nan => exact absurd rfl ha
  | num x =>
    cases sb with
    | nan => exact absurd rfl hb
    | num y =>
      simp only [sortDescBySecond, Score.gt, decide_eq_false_iff_not, not_lt, gt_iff_lt] at h
      have hxy : x ≠ y := fun e => hne (by rw [e])
      simp only [Score.gt, decide_eq_true_eq, gt_iff_lt]
      exact lt_of_le_of_ne h (Ne.symm hxy)

/-- A rearrangement of `l.map f` is the image of a rearrangement of `l`. -/
theorem perm_map_lift {α β : Type} (f : α → β) {l₁ m : List β} (h : l₁.Perm m) :
    ∀ l : List α, m = l.map f → ∃ l' : List α, l'.Perm l ∧ l₁ = l'.map f := by
  induction h with
  | nil =>
    intro l hl
    have hnil : l = [] := by simpa using hl.symm
    subst hnil
    exact ⟨[], List.Perm.refl _, rfl⟩
  | cons x _ ih =>
    intro l hl
    cases l with
    | nil => simp at hl
    | cons y ys =>
      simp only [List.map_cons, List.cons.injEq] at hl
      obtain ⟨l', hp, he⟩ := ih ys hl.2
      exact ⟨y :: l', hp.cons y, by simp [hl.1, he]⟩
  | swap x y t =>
    intro l hl
    cases l with
    | nil => simp at hl
    | cons a as =>
      cases as with
      | nil => simp at hl
      | cons b bs =>
        simp only [List.map_cons, List.cons.injEq] at hl
        exact ⟨b :: a :: bs, List.Perm.swap _ _ _, by simp [hl.1, hl.2.1, hl.2.2]⟩
  | trans _ _ ih1 ih2 =>
    intro l hl
    obtain ⟨l₂, hp2, he2⟩ := ih2 l hl
    obtain ⟨l₁', hp1, he1⟩ := ih1 l₂ he2
    exact ⟨l₁', hp1.trans hp2, he1⟩

/-! ## Properties of the selection step -/

/-- What the contract of `std::partial_sort` gives for the pairs of `predict`: the
sorted sequence is read off a rearrangement `e` of the position-tagged pairs. -/
theorem StdPartialSort.positions {α : Type} {comp : α → α → Bool}
    {psort : List α → Nat → List α}
    (hps : StdPartialSort comp psort) (l : List α) (k : Nat)
    (hk : k ≤ l.length) :
    ∃ e : List (Nat × α), e.Perm l.enum ∧ psort l k = e.map Prod.snd :=
  perm_map_lift Prod.snd (hps l k hk).1 l.enum (List.enum_map_snd l).symm

theorem zip_no_nan {S : Type} (tasks : List Int) (scores : List (Score S))
    (hnan : ∀ s ∈ scores, s ≠ Score.nan) :
    ∀ a ∈ tasks.zip scores, a.2 ≠ Score.nan := by
  intro a ha
  obtain ⟨t, s⟩ := a
  exact hnan s (List.of_mem_zip ha).2

/-- C1, as amended: for tasks and scores of the same length, no score being NaN, and
`K ≥ 0`, the selection step of `predict` returns `min K N` pairs read at pairwise
distinct positions of the positional pairing, and every position left out has a
score less than or equal to the score of every returned pair. -/
theorem selectTopK_top_selection {S : Type} [LinearOrder S]
    (psort : List (Int × Score S) → Nat → List (Int × Score S))
    (hps : StdPartialSort sortDescBySecond psort)
    (tasks : List Int) (scores : List (Score S)) (K : Int)
    (hlen : tasks.length = scores.length) (hK : 0 ≤ K)
    (hnan : ∀ s ∈ scores, s ≠ Score.nan) :
    ∃ (res : List (Int × Score S)) (pos : List Nat),
      selectTopK psort tasks scores K = .ok res ∧
      pos.length = min K.toNat tasks.length ∧
      pos.Nodup ∧
      List.Forall₂ (fun r i => tasks[i]? = some r.1 ∧ scores[i]? = some r.2) res pos ∧
      ∀ p s, p ∉ pos → scores[p]? = some s → ∀ r ∈ res, Score.le s r.2 = true := by
  have hzl : (tasks.zip scores).length = tasks.length := by simp; omega
  have hk : min K.toNat tasks.length ≤ (tasks.zip scores).length := by omega
  have hzn := zip_no_nan tasks scores hnan
  obtain ⟨e, hperm, he⟩ := hps.positions (tasks.zip scores) _ hk
  obtain ⟨hpm, hord⟩ := hps (tasks.zip scores) _ hk
  obtain ⟨-, hbound⟩ := hord (strictWeakOn_of_no_nan _ hzn)
  have hel : e.length = tasks.length := by
    rw [hperm.length_eq, List.enum_length, hzl]
  refine ⟨((e.take (min K.toNat tasks.length)).map Prod.snd),
    ((e.take (min K.toNat tasks.length)).map Prod.fst), ?_, ?_, ?_, ?_, ?_⟩
  · rw [selectTopK_eq psort hps tasks scores K (by omega) hK (by omega), he, List.map_take]
  · rw [List.length_map, List.length_take, hel]; omega
  · have hnd : (e.map Prod.fst).Nodup := by
      rw [(hperm.map Prod.fst).nodup_iff, List.enum_map_fst]
      exact List.nodup_range _
    rw [List.map_take]
    exact hnd.sublist (List.take_sublist _ _)
  · rw [List.forall₂_map_left_iff, List.forall₂_map_right_iff, List.forall₂_same]
    intro x hx
    have hx2 : x ∈ (tasks.zip scores).enum := hperm.subset (List.mem_of_mem_take hx)
    have hx3 : (tasks.zip scores)[x.1]? = some x.2 :=
      List.mk_mem_enum_iff_getElem?.1 hx2
    rw [List.getElem?_zip_eq_some] at hx3
    exact hx3
  · intro p s hp hs r hr
    have hpl : p < scores.length := by
      by_contra hcon
      rw [List.getElem?_eq_none (by omega)] at hs
      exact Option.noConfusion hs
    have hpt : p < tasks.length := by omega
    have hmem : (p, (tasks.get ⟨p, hpt⟩, s)) ∈ e := by
      apply hperm.symm.subset
      rw [List.mk_mem_enum_iff_getElem?, List.getElem?_zip_eq_some]
      exact ⟨List.getElem?_eq_getElem hpt, hs⟩
    rw [← List.take_append_drop (min K.toNat tasks.length) e, List.mem_append] at hmem
    rcases hmem with hmem | hmem
    · exact absurd (List.mem_map_of_mem Prod.fst hmem) hp
    · have hb : (tasks.get ⟨p, hpt⟩, s) ∈
          (psort (tasks.zip scores) (min K.toNat tasks.length)).drop
            (min K.toNat tasks.length) := by
        rw [he, ← List.map_drop]
        exact List.mem_map_of_mem Prod.snd hmem
      have hr2 : r ∈ (psort (tasks.zip scores) (min K.toNat tasks.length)).take
            (min K.toNat tasks.length) := by
        rw [he, ← List.map_take]
        exact hr
      have hfalse := hbound r hr2 _ hb
      exact (sortDescBySecond_false_le _ r
        (hzn _ (hpm.subset (List.mem_of_mem_drop hb)))
        (hzn _ (hpm.subset (List.mem_of_mem_take hr2))) hfalse).1

/-- C3, as amended: for tasks and scores of the same length, no score being NaN, and
`K ≥ 0`, the selection step of `predict` returns a list that is non-increasing by
score: `a.score >= b.score` for every pair of adjacent entries `(a, b)`. -/
theorem selectTopK_non_increasing {S : Type} [LinearOrder S]
    (psort : List (Int × Score S) → Nat → List (Int × Score S))
    (hps : StdPartialSort sortDescBySecond psort)
    (tasks : List Int) (scores : List (Score S)) (K : Int)
    (hlen : tasks.length = scores.length) (hK : 0 ≤ K)
    (hnan : ∀ s ∈ scores, s ≠ Score.nan) :
    ∃ res : List (Int × Score S),
      selectTopK psort tasks scores K = .ok res ∧
      res.Chain' (fun a b => Score.ge a.2 b.2 = true) := by
  have hzl : (tasks.zip scores).length = tasks.length := by simp; omega
  have hk : min K.toNat tasks.length ≤ (tasks.zip scores).length := by omega
  have hzn := zip_no_nan tasks scores hnan
  obtain ⟨hpm, hord⟩ := hps (tasks.zip scores) _ hk
  obtain ⟨hsorted, -⟩ := hord (strictWeakOn_of_no_nan _ hzn)
  refine ⟨_, selectTopK_eq psort hps tasks scores K (by omega) hK (by omega), ?_⟩
  apply List.Pairwise.chain'
  have hin : ∀ a ∈ (psort (tasks.zip scores) (min K.toNat tasks.length)).take
      (min K.toNat tasks.length), a.2 ≠ Score.nan :=
    fun a ha => hzn a (hpm.subset (List.mem_of_mem_take ha))
  refine List.Pairwise.imp_of_mem ?_ hsorted
  intro a b ha hb hab
  exact (sortDescBySecond_false_le b a (hin b hb) (hin a ha) hab).2

/-- C9, as amended: for tasks and scores of the same length, no score being NaN, and
`K ≥ 0`, the returned list is strictly descending by score whenever no two returned
entries have equal scores. -/
theorem selectTopK_strict_of_distinct {S : Type} [LinearOrder S]
    (psort : List (Int × Score S) → Nat → List (Int × Score S))
    (hps : StdPartialSort sortDescBySecond psort)
    (tasks : List Int) (scores : List (Score S)) (K : Int)
    (hlen : tasks.length = scores.length) (hK : 0 ≤ K)
    (hnan : ∀ s ∈ scores, s ≠ Score.nan) :
    ∃ res : List (Int × Score S),
      selectTopK psort tasks scores K = .ok res ∧
      ((res.map Prod.snd).Nodup → res.Chain' (fun a b => Score.gt a.2 b.2 = true)) := by
  have hzl : (tasks.zip scores).length = tasks.length := by simp; omega
  have hk : min K.toNat tasks.length ≤ (tasks.zip scores).length := by omega
  have hzn := zip_no_nan tasks scores hnan
  obtain ⟨hpm, hord⟩ := hps (tasks.zip scores) _ hk
  obtain ⟨hsorted, -⟩ := hord (strictWeakOn_of_no_nan _ hzn)
  refine ⟨_, selectTopK_eq psort hps tasks scores K (by omega) hK (by omega), ?_⟩
  intro hnd
  have hne := List.pairwise_map.1 hnd
  have hin : ∀ a ∈ (psort (tasks.zip scores) (min K.toNat tasks.length)).take
      (min K.toNat tasks.length), a.2 ≠ Score.nan :=
    fun a ha => hzn a (hpm.subset (List.mem_of_mem_take ha))
  apply List.Pairwise.chain'
  refine List.Pairwise.imp_of_mem ?_ (hsorted.and hne)
  intro a b ha hb hab
  exact sortDescBySecond_false_gt a b (hin a ha) (hin b hb) hab.2 hab.1

/-- The selection step faults for every negative `K`: `begin() + topSize` lies before
`begin()`. -/
theorem selectTopK_negative {S : Type} (psort : List (Int × S) → Nat → List (Int × S))
    (tasks : List Int) (scores : List S) (K : Int)
    (hlen : scores.length ≤ tasks.length) (hK : K < 0) :
    selectTopK psort tasks scores K = .error .invalidRange := by
  have ht : topSize K tasks.length = K := by
    unfold topSize
    rw [if_neg (by omega)]
  unfold selectTopK
  rw [pairScores_eq tasks scores hlen, ht]
  simp only [sortStep]
  rw [if_neg (by omega)]

/-- For `K ≥ 0` and one score per task the selection step returns `min K N` pairs. -/
theorem selectTopK_length {S : Type} [LinearOrder S]
    (psort : List (Int × Score S) → Nat → List (Int × Score S))
    (hps : StdPartialSort sortDescBySecond psort)
    (tasks : List Int) (scores : List (Score S)) (K : Int)
    (hlen : scores.length ≤ tasks.length) (hK : 0 ≤ K)
    (htop : min K.toNat tasks.length ≤ scores.length) :
    ∃ res : List (Int × Score S),
      selectTopK psort tasks scores K = .ok res ∧
      res.length = min K.toNat tasks.length ∧
      ∀ r ∈ res, r ∈ tasks.zip scores := by
  have hzl : (tasks.zip scores).length = scores.length := by simp; omega
  have hk : min K.toNat tasks.length ≤ (tasks.zip scores).length := by omega
  refine ⟨_, selectTopK_eq psort hps tasks scores K hlen hK htop, ?_, ?_⟩
  · rw [List.length_take, hps.length_eq _ _ hk]
    omega
  · intro r hr
    exact (hps _ _ hk).1.subset (List.mem_of_mem_take hr)

/-! ## The matrix construction in closed form -/

theorem AddNode_of_row (m : DMatrix) (row_id feat_id : Nat) (feat_val : Int)
    (r : List Node) (h : m.row[row_id]? = some r) :
    m.AddNode row_id feat_id feat_val =
      .ok ⟨m.row.set row_id (r ++ [⟨feat_id, feat_val⟩]), m.has_label⟩ := by
  simp [DMatrix.AddNode, h]

/-- The inner loop run for `n` rounds appends the first `n` fact nodes to row `row_id`. -/
theorem addFacts_loop (keys values : List Int) (row_id : Nat) (m : DMatrix)
    (r : List Node) (hr : m.row[row_id]? = some r) (n : Nat)
    (h1 : n ≤ keys.length) (h2 : n ≤ values.length) :
    forLoop n (addFact keys values row_id) m =
      .ok ⟨m.row.set row_id (r ++ (factNodes keys values).take n), m.has_label⟩ := by
  have hlt : row_id < m.row.length := by
    by_contra hcon
    rw [List.getElem?_eq_none (by omega)] at hr
    exact Option.noConfusion hr
  induction n with
  | zero =>
    have hself : m.row.set row_id r = m.row := by
      apply List.ext_getElem? 
      intro i
      by_cases hi : row_id = i
      · subst hi; rw [List.getElem?_set_self hlt, hr]
      · rw [List.getElem?_set_ne hi]
    simp [forLoop, hself]
  | succ k ih =>
    have hk1 : k < keys.length := h1
    have hk2 : k < values.length := h2
    have hz : k < (factNodes keys values).length := by simp [factNodes]; omega
    rw [forLoop, ih (by omega) (by omega)]
    simp only [addFact, index_of_lt _ _ hk1, index_of_lt _ _ hk2]
    rw [AddNode_of_row _ _ _ _ (r ++ (factNodes keys values).take k)
      (by simp [List.getElem?_set_self hlt])]
    rw [List.take_succ, List.getElem?_eq_getElem hz]
    simp [factNodes, List.getElem_zip, List.set_set]

theorem addFacts_eq (keys values : List Int) (row_id : Nat) (m : DMatrix)
    (r : List Node) (hr : m.row[row_id]? = some r) (h : keys.length ≤ values.length) :
    addFacts keys values keys.length row_id m =
      .ok ⟨m.row.set row_id (r ++ factNodes keys values), m.has_label⟩ := by
  unfold addFacts
  rw [addFacts_loop keys values row_id m r hr keys.length (le_refl _) h]
  rw [List.take_of_length_le (by simp [factNodes])]

/-- Invariant of the outer loop of `predict` after `n` rounds: `n` rows, `row_id` equal
to `n` modulo `2^32`, and, while `row_id` has not wrapped, row `i` is the row of task `i`. -/
theorem buildLoop_inv (tasks keys values : List Int) (h : keys.length ≤ values.length)
    (n : Nat) (hn : n ≤ tasks.length) :
    ∃ s : BuildState,
      forLoop n (addTask tasks keys values keys.length)
        { matrix := { row := DMatrix.new.Reset.row, has_label := false }, row_id := 0 } = .ok s ∧
      s.matrix.has_label = false ∧ s.matrix.row.length = n ∧
      s.row_id = n % 4294967296 ∧
      (n ≤ 4294967296 → s.matrix.row = (tasks.take n).map (taskRow keys values)) := by
  induction n with
  | zero =>
    exact ⟨_, rfl, rfl, rfl, rfl, fun _ => rfl⟩
  | succ k ih =>
    obtain ⟨s, hs, hlab, hrows, hid, hclosed⟩ := ih (by omega)
    have hk : k < tasks.length := hn
    have hidle : s.row_id < (s.matrix.row ++ [[]]).length := by
      rw [List.length_append, hrows, hid]
      have := Nat.mod_le k 4294967296
      simp only [List.length_singleton]
      omega
    obtain ⟨r0, hr0⟩ : ∃ r0, (s.matrix.row ++ [[]])[s.row_id]? = some r0 :=
      ⟨_, List.getElem?_eq_getElem hidle⟩
    have hadd := AddNode_of_row s.matrix.AddRow s.row_id (uint32 (tasks.get ⟨k, hk⟩)) 1 r0 hr0
    have hfacts := addFacts_eq keys values s.row_id
      ⟨(s.matrix.row ++ [[]]).set s.row_id
        (r0 ++ [(⟨uint32 (tasks.get ⟨k, hk⟩), 1⟩ : Node)]), s.matrix.has_label⟩
      (r0 ++ [(⟨uint32 (tasks.get ⟨k, hk⟩), 1⟩ : Node)])
      (List.getElem?_set_self hidle) h
    have hstep : forLoop (k + 1) (addTask tasks keys values keys.length)
        { matrix := { row := DMatrix.new.Reset.row, has_label := false }, row_id := 0 } =
        .ok { matrix := ⟨((s.matrix.row ++ [[]]).set s.row_id
                (r0 ++ [(⟨uint32 (tasks.get ⟨k, hk⟩), 1⟩ : Node)])).set s.row_id
                (r0 ++ [(⟨uint32 (tasks.get ⟨k, hk⟩), 1⟩ : Node)] ++ factNodes keys values),
                s.matrix.has_label⟩,
              row_id := (s.row_id + 1) % 4294967296 } := by
      rw [forLoop, hs]
      simp only [addTask, index_of_lt _ _ hk]
      rw [hadd]
      simp only [DMatrix.AddRow]
      rw [hfacts]
    refine ⟨_, hstep, ?_, ?_, ?_, ?_⟩
    · exact hlab
    · simp [hrows]
    · simp only [hid]
      omega
    · intro hle
      have hkid : s.row_id = k := by rw [hid]; exact Nat.mod_eq_of_lt (by omega)
      have hrow := hclosed (by omega)
      have hlen : s.matrix.row.length = s.row_id := by rw [hrows, hkid]
      have hr0nil : r0 = [] := by
        rw [List.getElem?_append_right (by omega), hlen] at hr0
        simpa using hr0.symm
      subst hr0nil
      simp only [List.set_set]
      rw [List.take_succ, List.getElem?_eq_getElem hk, List.map_append, ← hrow]
      rw [List.set_append_right _ _ (by omega), hlen]
      simp [taskRow]

/-- The matrix construction succeeds whenever `values` is at least as long as `keys`;
for a task array of at most `2^32` entries the matrix is one `taskRow` per task. -/
theorem buildMatrix_ok (tasks keys values : List Int) (h : keys.length ≤ values.length) :
    ∃ m : DMatrix,
      buildMatrix tasks keys values = .ok m ∧ m.has_label = false ∧
      m.row.length = tasks.length ∧
      (tasks.length ≤ 4294967296 → m.row = tasks.map (taskRow keys values)) := by
  obtain ⟨s, hs, hlab, hrows, -, hclosed⟩ :=
    buildLoop_inv tasks keys values h tasks.length (le_refl _)
  refine ⟨s.matrix, ?_, hlab, hrows, ?_⟩
  · unfold buildMatrix
    simp only []
    rw [hs]
  · intro hle
    rw [hclosed hle, List.take_length]

theorem uint32_of_range (x : Int) (h0 : 0 ≤ x) (h1 : x < 4294967296) :
    ((uint32 x : Nat) : Int) = x := by
  unfold uint32
  rw [Int.emod_eq_of_lt h0 h1]
  omega

/-! ## Properties of the matrix construction and of `predict` -/

/-- C4: for task ids in the `uint32` range (a task array has fewer than `2^31`
entries, the range of `jsize`) and every fact list, the matrix built by `predict` has
one row per task, in task order, the first node of row `i` has feature index
`tasks[i]` and feature value 1, an empty task sequence gives zero rows, and
`has_label` is false. -/
theorem buildMatrix_row_correspondence (tasks keys values : List Int)
    (hfacts : keys.length = values.length)
    (hsize : tasks.length < 2147483648)
    (htasks : ∀ t ∈ tasks, 0 ≤ t ∧ t < 4294967296) :
    ∃ m : DMatrix,
      buildMatrix tasks keys values = .ok m ∧
      m.has_label = false ∧
      m.row.length = tasks.length ∧
      (tasks = [] → m.row = []) ∧
      List.Forall₂ (fun r t => ∃ n : Node,
        r.head? = some n ∧ (n.feat_id : Int) = t ∧ n.feat_val = 1) m.row tasks := by
  obtain ⟨m, hm, hlab, hlen, hclosed⟩ := buildMatrix_ok tasks keys values (by omega)
  have hrow := hclosed (by omega)
  refine ⟨m, hm, hlab, hlen, ?_, ?_⟩
  · intro hnil
    rw [hrow, hnil]
    rfl
  · rw [hrow, List.forall₂_map_left_iff, List.forall₂_same]
    intro t ht
    exact ⟨_, rfl, uint32_of_range t (htasks t ht).1 (htasks t ht).2, rfl⟩

/-- C5: for a fact list of length `F` (keys and values both of length `F`), every row
of the built matrix has exactly `1 + F` nodes and the nodes after the first are the
same in all rows; with `F = 0` a row holds only its task node. -/
theorem buildMatrix_shared_context (tasks keys values : List Int) (F : Nat)
    (hkeys : keys.length = F) (hvalues : values.length = F)
    (hsize : tasks.length < 2147483648) :
    ∃ m : DMatrix,
      buildMatrix tasks keys values = .ok m ∧
      (∀ r ∈ m.row, r.length = 1 + F) ∧
      (∀ r ∈ m.row, ∀ s ∈ m.row, r.tail = s.tail) ∧
      (F = 0 → ∀ r ∈ m.row, ∃ n : Node, r = [n]) := by
  obtain ⟨m, hm, -, -, hclosed⟩ := buildMatrix_ok tasks keys values (by omega)
  have hrow := hclosed (by omega)
  have hfl : (factNodes keys values).length = F := by
    simp [factNodes, hkeys, hvalues]
  refine ⟨m, hm, ?_, ?_, ?_⟩
  · intro r hr
    rw [hrow, List.mem_map] at hr
    obtain ⟨t, -, rfl⟩ := hr
    simp [taskRow, hfl]
    omega
  · intro r hr s hs
    rw [hrow, List.mem_map] at hr hs
    obtain ⟨t, -, rfl⟩ := hr
    obtain ⟨u, -, rfl⟩ := hs
    rfl
  · intro hF r hr
    rw [hrow, List.mem_map] at hr
    obtain ⟨t, -, rfl⟩ := hr
    have hnil : factNodes keys values = [] := List.length_eq_zero.1 (by omega)
    exact ⟨⟨uint32 t, 1⟩, by simp [taskRow, hnil]⟩

/-- C6, as amended: for keys and values of equal length whose entries are
non-negative 32-bit integers, in every row the nodes after the task node are, in the
order given, exactly the supplied (key, value) pairs, repeated keys included. -/
theorem buildMatrix_fact_nodes (tasks keys values : List Int)
    (hfacts : keys.length = values.length)
    (hsize : tasks.length < 2147483648)
    (hkeys : ∀ k ∈ keys, 0 ≤ k ∧ k < 2147483648)
    (hvalues : ∀ v ∈ values, 0 ≤ v ∧ v < 2147483648) :
    ∃ m : DMatrix,
      buildMatrix tasks keys values = .ok m ∧
      ∀ r ∈ m.row, List.Forall₂ (fun (n : Node) (kv : Int × Int) =>
        (n.feat_id : Int) = kv.1 ∧ n.feat_val = kv.2) r.tail (keys.zip values) := by
  obtain ⟨m, hm, -, -, hclosed⟩ := buildMatrix_ok tasks keys values (by omega)
  have hrow := hclosed (by omega)
  refine ⟨m, hm, ?_⟩
  intro r hr
  rw [hrow, List.mem_map] at hr
  obtain ⟨t, -, rfl⟩ := hr
  simp only [taskRow, List.tail_cons, factNodes]
  rw [List.forall₂_map_left_iff, List.forall₂_same]
  intro kv hkv
  have hk := hkeys kv.1 (List.of_mem_zip hkv).1
  have hv := hvalues kv.2 (List.of_mem_zip hkv).2
  exact ⟨uint32_of_range _ hk.1 (by omega), uint32_of_range _ hv.1 (by omega)⟩

/-- Closed form of `predict` when `values` is at least as long as `keys`, the engine
returns no more scores than there are tasks and the clamped `K` is in range. -/
theorem predict_eq {S : Type} [LinearOrder S] (constructorFound : Bool)
    (psort : List (Int × Score S) → Nat → List (Int × Score S))
    (hps : StdPartialSort sortDescBySecond psort)
    (solver : Solver (Score S)) (tasks keys values : List Int) (K : Int) (m : DMatrix)
    (hm : buildMatrix tasks keys values = .ok m)
    (hscores : (solver.score m).length ≤ tasks.length) (hK : 0 ≤ K)
    (htop : min K.toNat tasks.length ≤ (solver.score m).length) :
    predict constructorFound psort solver tasks keys values K =
      .ok ({ score := solver.score, dataset := some m, result := solver.score m },
        if constructorFound then
          some ((psort (tasks.zip (solver.score m)) (min K.toNat tasks.length)).take
            (min K.toNat tasks.length))
        else none) := by
  have hz : (tasks.zip (solver.score m)).length = (solver.score m).length := by
    simp; omega
  have h0 := topSize_nonneg K tasks.length hK
  have h1 := topSize_toNat K tasks.length hK
  have hin : 0 ≤ topSize K tasks.length ∧
      topSize K tasks.length ≤ ((tasks.zip (solver.score m)).length : Int) := by
    constructor
    · exact h0
    · rw [hz]; omega
  unfold predict
  rw [hm]
  simp only [Solver.InitializeDataset, Solver.StartWork, Solver.GetResult]
  rw [pairScores_eq tasks _ hscores]
  simp only [sortStep, if_pos hin]
  rw [outputLoop_eq _ _ (by rw [h1, hps.length_eq _ _ (by omega)]; omega), h1]
  cases constructorFound <;> rfl

/-- Two loop bodies that agree on the rounds `i < n` give the same loop. -/
theorem forLoop_congr {σ : Type} (n : Nat) (f g : Nat → σ → Except Fault σ) (init : σ)
    (h : ∀ i, i < n → ∀ s, f i s = g i s) : forLoop n f init = forLoop n g init := by
  induction n with
  | zero => rfl
  | succ k ih =>
    rw [forLoop, forLoop, ih (fun i hi s => h i (by omega) s)]
    cases forLoop k g init with
    | error e => rfl
    | ok s => exact h k (by omega) s

/-- Entries of `values` past the length of `keys` are never read. -/
theorem buildMatrix_take_values (tasks keys values : List Int) :
    buildMatrix tasks keys (values.take keys.length) = buildMatrix tasks keys values := by
  have hfact : ∀ row_id j, j < keys.length → ∀ m,
      addFact keys (values.take keys.length) row_id j m = addFact keys values row_id j m := by
    intro row_id j hj m
    simp only [addFact, index, List.getElem?_take_of_lt hj]
  have hfacts : ∀ row_id m, addFacts keys (values.take keys.length) keys.length row_id m =
      addFacts keys values keys.length row_id m := by
    intro row_id m
    exact forLoop_congr _ _ _ _ (hfact row_id)
  have htask : ∀ i s, addTask tasks keys (values.take keys.length) keys.length i s =
      addTask tasks keys values keys.length i s := by
    intro i s
    simp only [addTask, hfacts]
  unfold buildMatrix
  simp only []
  rw [forLoop_congr _ _ _ _ (fun i _ s => htask i s)]

/-- C7, as amended: when the engine returns fewer scores than there are tasks and
`0 ≤ min K N ≤ len(scores)`, the selection step raises no error; it returns `min K N`
pairs, each a positional pair `(tasks[i], scores[i])` with `i < len(scores)`. -/
theorem selectTopK_fewer_scores {S : Type} [LinearOrder S]
    (psort : List (Int × Score S) → Nat → List (Int × Score S))
    (hps : StdPartialSort sortDescBySecond psort)
    (tasks : List Int) (scores : List (Score S)) (K : Int)
    (hlen : scores.length < tasks.length) (hK : 0 ≤ K)
    (htop : min K.toNat tasks.length ≤ scores.length) :
    ∃ res : List (Int × Score S),
      selectTopK psort tasks scores K = .ok res ∧
      res.length = min K.toNat tasks.length ∧
      ∀ r ∈ res, ∃ i, i < scores.length ∧ tasks[i]? = some r.1 ∧ scores[i]? = some r.2 := by
  obtain ⟨res, hres, hl, hmem⟩ :=
    selectTopK_length psort hps tasks scores K (by omega) hK htop
  refine ⟨res, hres, hl, ?_⟩
  intro r hr
  obtain ⟨i, hi, hget⟩ := List.getElem_of_mem (hmem r hr)
  have hi2 : i < scores.length := by
    have : (tasks.zip scores).length = scores.length := by simp; omega
    omega
  refine ⟨i, hi2, ?_⟩
  have h3 : (tasks.zip scores)[i]? = some r := by
    rw [List.getElem?_eq_getElem hi, hget]
  exact List.getElem?_zip_eq_some.1 h3

/-- C8, as amended: a request whose `values` array is at least as long as its `keys`
array (the lengths may differ) is not rejected: the matrix is the one built from
`keys` and the first `len(keys)` values, it is bound to the engine and scored, and,
with one score per task and `K ≥ 0`, a result is returned. -/
theorem predict_accepts_longer_values {S : Type} [LinearOrder S]
    (psort : List (Int × Score S) → Nat → List (Int × Score S))
    (hps : StdPartialSort sortDescBySecond psort)
    (solver : Solver (Score S)) (tasks keys values : List Int) (K : Int)
    (hfacts : keys.length ≤ values.length)
    (hscores : ∀ m, buildMatrix tasks keys values = .ok m →
      (solver.score m).length = tasks.length)
    (hK : 0 ≤ K) :
    ∃ (m : DMatrix) (out : List (Int × Score S)),
      buildMatrix tasks keys (values.take keys.length) = .ok m ∧
      predict true psort solver tasks keys values K =
        .ok ({ score := solver.score, dataset := some m, result := solver.score m },
          some out) := by
  obtain ⟨m, hm, -, -, -⟩ := buildMatrix_ok tasks keys values hfacts
  have hs := hscores m hm
  refine ⟨m, (psort (tasks.zip (solver.score m)) (min K.toNat tasks.length)).take
    (min K.toNat tasks.length), ?_, ?_⟩
  · rw [buildMatrix_take_values, hm]
  · rw [predict_eq true psort hps solver tasks keys values K m hm (by omega) hK (by omega)]
    rfl

/-- C10: when `values` is at least as long as `keys`, the engine returns one score per
task and `K ≥ 0`, no indexed access of `predict` leaves its array: the matrix is
built, every score is paired, the middle of `std::partial_sort` lies within
`[0, len(pairs)]`, the output loop reads inside the sorted pairs, and `predict`
returns without a fault. -/
theorem predict_in_bounds {S : Type} [LinearOrder S] (constructorFound : Bool)
    (psort : List (Int × Score S) → Nat → List (Int × Score S))
    (hps : StdPartialSort sortDescBySecond psort)
    (solver : Solver (Score S)) (tasks keys values : List Int) (K : Int)
    (hfacts : keys.length ≤ values.length)
    (hscores : ∀ m, buildMatrix tasks keys values = .ok m →
      (solver.score m).length = tasks.length)
    (hK : 0 ≤ K) :
    ∃ (m : DMatrix) (pairs sorted out : List (Int × Score S)),
      buildMatrix tasks keys values = .ok m ∧
      pairScores tasks (solver.score m) = .ok pairs ∧
      0 ≤ topSize K tasks.length ∧ topSize K tasks.length ≤ (pairs.length : Int) ∧
      sortStep psort pairs (topSize K tasks.length) = .ok sorted ∧
      outputLoop sorted (topSize K tasks.length) = .ok out ∧
      ∃ r, predict constructorFound psort solver tasks keys values K = .ok r := by
  obtain ⟨m, hm, -, -, -⟩ := buildMatrix_ok tasks keys values hfacts
  have hs := hscores m hm
  have hz : (tasks.zip (solver.score m)).length = tasks.length := by simp; omega
  have h0 := topSize_nonneg K tasks.length hK
  have h1 := topSize_toNat K tasks.length hK
  have h2 := topSize_le K tasks.length
  have hin : 0 ≤ topSize K tasks.length ∧
      topSize K tasks.length ≤ ((tasks.zip (solver.score m)).length : Int) := by
    rw [hz]; exact ⟨h0, h2⟩
  refine ⟨m, tasks.zip (solver.score m),
    psort (tasks.zip (solver.score m)) (topSize K tasks.length).toNat,
    (psort (tasks.zip (solver.score m)) (topSize K tasks.length).toNat).take
      (topSize K tasks.length).toNat,
    hm, pairScores_eq tasks _ (by omega),
    h0, by rw [hz]; exact h2, by simp only [sortStep, if_pos hin], ?_, ?_⟩
  · exact outputLoop_eq _ _ (by rw [h1, hps.length_eq _ _ (by omega)]; omega)
  · exact ⟨_, predict_eq constructorFound psort hps solver tasks keys values K m hm
      (by omega) hK (by omega)⟩

/-! ## Concrete runs -/

/-- The end-to-end scenario: tasks 10, 20, 30 with scores 0.1, 0.9, 0.5 and `K = 2`. -/
theorem selectTopK_scenario :
    selectTopK (partial_sort sortDescBySecond) [10, 20, 30]
        [Score.num (1 / 10 : ℚ), .num (9 / 10), .num (1 / 2)] 2 =
      .ok [(20, .num (9 / 10)), (30, .num (1 / 2))] := by
  norm_num [selectTopK, pairScores, pairScore, forLoop, index, sortStep, topSize,
    partial_sort, selectBest, sortDescBySecond, Score.gt, outputLoop, outputElement]

/-- Degenerate `K = 0`: the result is empty. -/
theorem selectTopK_zero :
    selectTopK (partial_sort sortDescBySecond) [10, 20, 30]
        [Score.num (1 / 10 : ℚ), .num (9 / 10), .num (1 / 2)] 0 = .ok [] := by
  norm_num [selectTopK, pairScores, pairScore, forLoop, index, sortStep, topSize,
    partial_sort, selectBest, sortDescBySecond, Score.gt, outputLoop, outputElement]

/-- Oversized `K = 100`: all three pairs, in descending order. -/
theorem selectTopK_oversized :
    selectTopK (partial_sort sortDescBySecond) [10, 20, 30]
        [Score.num (1 / 10 : ℚ), .num (9 / 10), .num (1 / 2)] 100 =
      .ok [(20, .num (9 / 10)), (30, .num (1 / 2)), (10, .num (1 / 10))] := by
  norm_num [selectTopK, pairScores, pairScore, forLoop, index, sortStep, topSize,
    partial_sort, selectBest, sortDescBySecond, Score.gt, outputLoop, outputElement]

/-- C1, counterexample: with the scores NaN, 5 and `K = 1` the pair of score NaN is
returned and the position left out has score 5, which is not `<=` NaN. -/
theorem selectTopK_nan_left_out :
    selectTopK (partial_sort sortDescBySecond) [1, 2]
        [Score.nan, Score.num (5 : ℚ)] 1 = .ok [(1, Score.nan)] ∧
      ¬ ∃ pos : List Nat,
        pos.length = min (1 : Int).toNat [(1 : Int), 2].length ∧
        pos.Nodup ∧
        List.Forall₂ (fun (r : Int × Score ℚ) i => [(1 : Int), 2][i]? = some r.1 ∧
          [Score.nan, Score.num (5 : ℚ)][i]? = some r.2) [(1, Score.nan)] pos ∧
        ∀ p s, p ∉ pos → [Score.nan, Score.num (5 : ℚ)][p]? = some s →
          ∀ r ∈ [((1 : Int), (Score.nan : Score ℚ))], Score.le s r.2 = true := by
  constructor
  · norm_num [selectTopK, pairScores, pairScore, forLoop, index, sortStep, topSize,
      partial_sort, selectBest, sortDescBySecond, Score.gt, outputLoop, outputElement]
  · rintro ⟨pos, hl, -, -, hb⟩
    obtain ⟨i, rfl⟩ : ∃ i, pos = [i] := List.length_eq_one.1 (by simpa using hl)
    by_cases hi : i = 0
    · have h := hb 1 (Score.num 5) (by simp [hi]) rfl (1, Score.nan) (by simp)
      simp [Score.le] at h
    · have h := hb 0 Score.nan (by simpa using fun h => hi h.symm) rfl
        (1, Score.nan) (by simp)
      simp [Score.le] at h

/-- C1, as amended, on the end-to-end scenario (tasks 10, 20, 30; scores 0.1, 0.9,
0.5; `K = 2`). -/
theorem selectTopK_top_selection_witness :
    StdPartialSort (sortDescBySecond : Int × Score ℚ → Int × Score ℚ → Bool)
        (partial_sort sortDescBySecond) ∧
      [(10 : Int), 20, 30].length =
        [Score.num (1 / 10 : ℚ), .num (9 / 10), .num (1 / 2)].length ∧
      (0 : Int) ≤ 2 ∧
      (∀ s ∈ [Score.num (1 / 10 : ℚ), .num (9 / 10), .num (1 / 2)], s ≠ Score.nan) ∧
      ∃ (res : List (Int × Score ℚ)) (pos : List Nat),
        selectTopK (partial_sort sortDescBySecond) [10, 20, 30]
          [Score.num (1 / 10 : ℚ), .num (9 / 10), .num (1 / 2)] 2 = .ok res ∧
        pos.length = min (2 : Int).toNat [(10 : Int), 20, 30].length ∧
        pos.Nodup ∧
        List.Forall₂ (fun r i => [(10 : Int), 20, 30][i]? = some r.1 ∧
          [Score.num (1 / 10 : ℚ), .num (9 / 10), .num (1 / 2)][i]? = some r.2) res pos ∧
        ∀ p s, p ∉ pos →
          [Score.num (1 / 10 : ℚ), .num (9 / 10), .num (1 / 2)][p]? = some s →
          ∀ r ∈ res, Score.le s r.2 = true :=
  ⟨partial_sort_spec _, rfl, by decide, by simp,
    selectTopK_top_selection (partial_sort sortDescBySecond) (partial_sort_spec _)
      [10, 20, 30] [.num (1 / 10), .num (9 / 10), .num (1 / 2)] 2 rfl (by decide)
      (by simp)⟩

/-- Whatever conforming `std::partial_sort` is used, the scores NaN, 5 with `K = 2`
come back as two adjacent entries `(a, b)` for which `a.score >= b.score` is false. -/
theorem selectTopK_nan_any_sort (psort : List (Int × Score ℚ) → Nat → List (Int × Score ℚ))
    (hps : StdPartialSort sortDescBySecond psort) :
    ∃ res : List (Int × Score ℚ),
      selectTopK psort [1, 2] [Score.nan, Score.num 5] 2 = .ok res ∧
      ¬ res.Chain' (fun a b => Score.ge a.2 b.2 = true) := by
  have hperm := (hps ([1, 2].zip [Score.nan, Score.num (5 : ℚ)]) 2 (by decide)).1
  refine ⟨_, selectTopK_eq psort hps [1, 2] [Score.nan, Score.num 5] 2 (by decide)
    (by decide) (by decide), ?_⟩
  have hl := hperm.length_eq
  have hmin : min (2 : Int).toNat [(1 : Int), 2].length = 2 := by decide
  rw [hmin]
  have hnan : ((1 : Int), (Score.nan : Score ℚ)) ∈
      psort ([1, 2].zip [Score.nan, Score.num (5 : ℚ)]) 2 :=
    hperm.symm.subset (by simp)
  match hp : psort ([1, 2].zip [Score.nan, Score.num (5 : ℚ)]) 2, hl, hnan with
  | [a, b], _, hmem =>
    intro hchain
    have hab : Score.ge a.2 b.2 = true := by simpa using hchain
    rcases List.mem_cons.1 hmem with h | h
    · rw [← h] at hab
      simp [Score.ge] at hab
    · have hb : b = (1, Score.nan) := (List.mem_singleton.1 h).symm
      rw [hb] at hab
      cases hs : a.2 <;> simp [hs, Score.ge] at hab

/-- C3, counterexample: with the scores NaN, 5 and `K = 2` the result is
`[(1, NaN), (2, 5)]`, and `NaN >= 5` is false. -/
theorem selectTopK_nan_not_non_increasing :
    selectTopK (partial_sort sortDescBySecond) [1, 2]
        [Score.nan, Score.num (5 : ℚ)] 2 = .ok [(1, Score.nan), (2, Score.num 5)] ∧
      ¬ List.Chain' (fun a b : Int × Score ℚ => Score.ge a.2 b.2 = true)
        [(1, Score.nan), (2, Score.num 5)] := by
  constructor
  · norm_num [selectTopK, pairScores, pairScore, forLoop, index, sortStep, topSize,
      partial_sort, selectBest, sortDescBySecond, Score.gt, outputLoop, outputElement]
  · simp [Score.ge]

/-- C3, as amended, on the scenario with the oversized `K = 100`. -/
theorem selectTopK_non_increasing_witness :
    StdPartialSort (sortDescBySecond : Int × Score ℚ → Int × Score ℚ → Bool)
        (partial_sort sortDescBySecond) ∧
      [(10 : Int), 20, 30].length =
        [Score.num (1 / 10 : ℚ), .num (9 / 10), .num (1 / 2)].length ∧
      (0 : Int) ≤ 100 ∧
      (∀ s ∈ [Score.num (1 / 10 : ℚ), .num (9 / 10), .num (1 / 2)], s ≠ Score.nan) ∧
      ∃ res : List (Int × Score ℚ),
        selectTopK (partial_sort sortDescBySecond) [10, 20, 30]
          [Score.num (1 / 10 : ℚ), .num (9 / 10), .num (1 / 2)] 100 = .ok res ∧
        res.Chain' (fun a b => Score.ge a.2 b.2 = true) :=
  ⟨partial_sort_spec _, rfl, by decide, by simp,
    selectTopK_non_increasing (partial_sort sortDescBySecond) (partial_sort_spec _)
      [10, 20, 30] [.num (1 / 10), .num (9 / 10), .num (1 / 2)] 100 rfl (by decide)
      (by simp)⟩

/-- C2, the failing input: with `K = -1` the selection step of `predict` calls
`std::partial_sort` with `middle = begin() - 1`, which is undefined behaviour, where
the specification promises an empty result. -/
theorem selectTopK_negative_K_fault :
    selectTopK (partial_sort sortDescBySecond) [10, 20, 30]
      [Score.num (1 / 10 : ℚ), .num (9 / 10), .num (1 / 2)] (-1) =
        .error .invalidRange := by
  norm_num [selectTopK, pairScores, pairScore, forLoop, index, sortStep, topSize]

/-- Whatever conforming `std::partial_sort` is used, the equal scores 5, 5 with `K = 2`
come back as two adjacent entries that are not strictly descending. -/
theorem selectTopK_ties_any_sort (psort : List (Int × Score ℚ) → Nat → List (Int × Score ℚ))
    (hps : StdPartialSort sortDescBySecond psort) :
    ∃ res : List (Int × Score ℚ),
      selectTopK psort [1, 2] [Score.num 5, Score.num 5] 2 = .ok res ∧
      ¬ res.Chain' (fun a b => Score.gt a.2 b.2 = true) := by
  obtain ⟨res, hres, hl, hmem⟩ :=
    selectTopK_length psort hps [1, 2] [Score.num 5, Score.num 5] 2 (by decide)
      (by decide) (by decide)
  refine ⟨res, hres, ?_⟩
  have hfive : ∀ r ∈ res, r.2 = Score.num 5 := by
    intro r hr
    have := hmem r hr
    simp only [List.zip_cons_cons, List.zip_nil_right, List.mem_cons, List.mem_singleton,
      List.not_mem_nil, or_false] at this
    rcases this with rfl | rfl <;> rfl
  match res, hl, hfive with
  | [a, b], _, h5 =>
    intro hchain
    have hab : Score.gt a.2 b.2 = true := by simpa using hchain
    rw [h5 a (by simp), h5 b (by simp)] at hab
    simp [Score.gt] at hab

/-- C9, counterexample: with the equal scores 5, 5 and `K = 2` both pairs are returned
and the two adjacent scores are equal, not strictly descending; with the different
scores NaN, 5 and `K = 2` the result is `[(1, NaN), (2, 5)]`, and `NaN > 5` is false. -/
theorem selectTopK_not_strict :
    (selectTopK (partial_sort sortDescBySecond) [1, 2]
        [Score.num (5 : ℚ), Score.num 5] 2 = .ok [(1, Score.num 5), (2, Score.num 5)] ∧
      ¬ List.Chain' (fun a b : Int × Score ℚ => Score.gt a.2 b.2 = true)
        [(1, Score.num 5), (2, Score.num 5)]) ∧
    (selectTopK (partial_sort sortDescBySecond) [1, 2]
        [Score.nan, Score.num (5 : ℚ)] 2 = .ok [(1, Score.nan), (2, Score.num 5)] ∧
      ([(1, Score.nan), (2, Score.num (5 : ℚ))].map Prod.snd).Nodup ∧
      ¬ List.Chain' (fun a b : Int × Score ℚ => Score.gt a.2 b.2 = true)
        [(1, Score.nan), (2, Score.num 5)]) := by
  refine ⟨⟨?_, ?_⟩, ?_, ?_, ?_⟩
  · norm_num [selectTopK, pairScores, pairScore, forLoop, index, sortStep, topSize,
      partial_sort, selectBest, sortDescBySecond, Score.gt, outputLoop, outputElement]
  · simp [Score.gt]
  · norm_num [selectTopK, pairScores, pairScore, forLoop, index, sortStep, topSize,
      partial_sort, selectBest, sortDescBySecond, Score.gt, outputLoop, outputElement]
  · simp
  · simp [Score.gt]

/-- C9, as amended, on the end-to-end scenario: its returned scores 0.9 and 0.5 differ,
and the result is strictly descending. -/
theorem selectTopK_strict_of_distinct_witness :
    StdPartialSort (sortDescBySecond : Int × Score ℚ → Int × Score ℚ → Bool)
        (partial_sort sortDescBySecond) ∧
      [(10 : Int), 20, 30].length =
        [Score.num (1 / 10 : ℚ), .num (9 / 10), .num (1 / 2)].length ∧
      (0 : Int) ≤ 2 ∧
      (∀ s ∈ [Score.num (1 / 10 : ℚ), .num (9 / 10), .num (1 / 2)], s ≠ Score.nan) ∧
      ∃ res : List (Int × Score ℚ),
        selectTopK (partial_sort sortDescBySecond) [10, 20, 30]
          [Score.num (1 / 10 : ℚ), .num (9 / 10), .num (1 / 2)] 2 = .ok res ∧
        (res.map Prod.snd).Nodup ∧
        res.Chain' (fun a b => Score.gt a.2 b.2 = true) := by
  refine ⟨partial_sort_spec _, rfl, by decide, by simp, ?_⟩
  obtain ⟨res, hres, hstrict⟩ :=
    selectTopK_strict_of_distinct (partial_sort sortDescBySecond) (partial_sort_spec _)
      [10, 20, 30] [Score.num (1 / 10 : ℚ), .num (9 / 10), .num (1 / 2)] 2 rfl (by decide)
      (by simp)
  have hval : res = [(20, .num (9 / 10)), (30, .num (1 / 2))] := by
    rw [selectTopK_scenario] at hres
    exact (Except.ok.inj hres).symm
  have hnd : (res.map Prod.snd).Nodup := by
    rw [hval]
    norm_num
  exact ⟨res, hres, hnd, hstrict hnd⟩

/-- C7, counterexample: three tasks, two scores, `K = 1`: the selection step returns
the pair `(10, 0.9)` and no error. -/
theorem selectTopK_mismatch_returns :
    [(10 : Int), 20, 30].length ≠ [Score.num (9 / 10 : ℚ), .num (1 / 2)].length ∧
      selectTopK (partial_sort sortDescBySecond) [10, 20, 30]
          [Score.num (9 / 10 : ℚ), .num (1 / 2)] 1 =
        .ok [(10, .num (9 / 10))] := by
  constructor
  · decide
  · norm_num [selectTopK, pairScores, pairScore, forLoop, index, sortStep, topSize,
      partial_sort, selectBest, sortDescBySecond, Score.gt, outputLoop, outputElement]

/-- C7, as amended, on three tasks, two scores and `K = 1`. -/
theorem selectTopK_fewer_scores_witness :
    StdPartialSort (sortDescBySecond : Int × Score ℚ → Int × Score ℚ → Bool)
        (partial_sort sortDescBySecond) ∧
      [Score.num (9 / 10 : ℚ), .num (1 / 2)].length < [(10 : Int), 20, 30].length ∧
      (0 : Int) ≤ 1 ∧
      min (1 : Int).toNat [(10 : Int), 20, 30].length ≤
        [Score.num (9 / 10 : ℚ), .num (1 / 2)].length ∧
      ∃ res : List (Int × Score ℚ),
        selectTopK (partial_sort sortDescBySecond) [10, 20, 30]
          [Score.num (9 / 10 : ℚ), .num (1 / 2)] 1 = .ok res ∧
        res.length = min (1 : Int).toNat [(10 : Int), 20, 30].length ∧
        ∀ r ∈ res, ∃ i, i < [Score.num (9 / 10 : ℚ), .num (1 / 2)].length ∧
          [(10 : Int), 20, 30][i]? = some r.1 ∧
          [Score.num (9 / 10 : ℚ), .num (1 / 2)][i]? = some r.2 :=
  ⟨partial_sort_spec _, by decide, by decide, by decide,
    selectTopK_fewer_scores (partial_sort sortDescBySecond) (partial_sort_spec _)
      [10, 20, 30] [.num (9 / 10), .num (1 / 2)] 1 (by decide) (by decide) (by decide)⟩

/-- The end-to-end scenario: the matrix of tasks 10, 20, 30 with facts (5, 2), (6, 1). -/
theorem buildMatrix_scenario :
    buildMatrix [10, 20, 30] [5, 6] [2, 1] =
      .ok ⟨[[⟨10, 1⟩, ⟨5, 2⟩, ⟨6, 1⟩], [⟨20, 1⟩, ⟨5, 2⟩, ⟨6, 1⟩],
        [⟨30, 1⟩, ⟨5, 2⟩, ⟨6, 1⟩]], false⟩ := by
  rfl

/-- C4 on the end-to-end scenario. -/
theorem buildMatrix_row_correspondence_witness :
    [(5 : Int), 6].length = [(2 : Int), 1].length ∧
      [(10 : Int), 20, 30].length < 2147483648 ∧
      (∀ t ∈ [(10 : Int), 20, 30], 0 ≤ t ∧ t < 4294967296) ∧
      ∃ m : DMatrix,
        buildMatrix [10, 20, 30] [5, 6] [2, 1] = .ok m ∧
        m.has_label = false ∧
        m.row.length = [(10 : Int), 20, 30].length ∧
        ([(10 : Int), 20, 30] = [] → m.row = []) ∧
        List.Forall₂ (fun r t => ∃ n : Node,
          r.head? = some n ∧ (n.feat_id : Int) = t ∧ n.feat_val = 1) m.row [10, 20, 30] :=
  ⟨rfl, by decide, by decide,
    buildMatrix_row_correspondence [10, 20, 30] [5, 6] [2, 1] rfl (by decide) (by decide)⟩

/-- C5 on the end-to-end scenario, with `F = 2`. -/
theorem buildMatrix_shared_context_witness :
    [(5 : Int), 6].length = 2 ∧ [(2 : Int), 1].length = 2 ∧
      [(10 : Int), 20, 30].length < 2147483648 ∧
      ∃ m : DMatrix,
        buildMatrix [10, 20, 30] [5, 6] [2, 1] = .ok m ∧
        (∀ r ∈ m.row, r.length = 1 + 2) ∧
        (∀ r ∈ m.row, ∀ s ∈ m.row, r.tail = s.tail) ∧
        (2 = 0 → ∀ r ∈ m.row, ∃ n : Node, r = [n]) :=
  ⟨rfl, rfl, by decide,
    buildMatrix_shared_context [10, 20, 30] [5, 6] [2, 1] 2 rfl rfl (by decide)⟩

/-- C6, counterexample: the key -1 and the value -1 reach the matrix as 4294967295, so
the fact node of the only row does not carry the supplied key and value. -/
theorem buildMatrix_negative_fact :
    buildMatrix [10] [-1] [-1] =
        .ok ⟨[[⟨10, 1⟩, ⟨4294967295, 4294967295⟩]], false⟩ ∧
      ¬ (((⟨4294967295, 4294967295⟩ : Node).feat_id : Int) = -1 ∧
        (⟨4294967295, 4294967295⟩ : Node).feat_val = -1) := by
  constructor
  · rfl
  · decide

/-- C6, as amended, on a fact list that repeats the key 5. -/
theorem buildMatrix_fact_nodes_witness :
    [(5 : Int), 5].length = [(2 : Int), 1].length ∧
      [(10 : Int), 20, 30].length < 2147483648 ∧
      (∀ k ∈ [(5 : Int), 5], 0 ≤ k ∧ k < 2147483648) ∧
      (∀ v ∈ [(2 : Int), 1], 0 ≤ v ∧ v < 2147483648) ∧
      ∃ m : DMatrix,
        buildMatrix [10, 20, 30] [5, 5] [2, 1] = .ok m ∧
        ∀ r ∈ m.row, List.Forall₂ (fun (n : Node) (kv : Int × Int) =>
          (n.feat_id : Int) = kv.1 ∧ n.feat_val = kv.2) r.tail
            ([(5 : Int), 5].zip [(2 : Int), 1]) :=
  ⟨rfl, by decide, by decide, by decide,
    buildMatrix_fact_nodes [10, 20, 30] [5, 5] [2, 1] rfl (by decide) (by decide)
      (by decide)⟩

/-- C8, counterexample: two keys and three values; the request is served, the engine
receives the matrix and a result is returned. -/
theorem predict_mismatched_facts_served :
    [(5 : Int), 6].length ≠ [(2 : Int), 1, 7].length ∧
      predict true (partial_sort sortDescBySecond) stubSolver [10, 20, 30] [5, 6]
          [2, 1, 7] 2 =
        .ok ({ score := stubSolver.score,
               dataset := some ⟨[[⟨10, 1⟩, ⟨5, 2⟩, ⟨6, 1⟩], [⟨20, 1⟩, ⟨5, 2⟩, ⟨6, 1⟩],
                 [⟨30, 1⟩, ⟨5, 2⟩, ⟨6, 1⟩]], false⟩,
               result := [.num (1 / 10), .num (9 / 10), .num (1 / 2)] },
          some [(20, .num (9 / 10)), (30, .num (1 / 2))]) := by
  constructor
  · decide
  · have hm : buildMatrix [10, 20, 30] [5, 6] [2, 1, 7] =
        .ok ⟨[[⟨10, 1⟩, ⟨5, 2⟩, ⟨6, 1⟩], [⟨20, 1⟩, ⟨5, 2⟩, ⟨6, 1⟩],
          [⟨30, 1⟩, ⟨5, 2⟩, ⟨6, 1⟩]], false⟩ := by rfl
    rw [predict_eq true _ (partial_sort_spec _) stubSolver _ _ _ 2 _ hm (by simp [stubSolver])
      (by decide) (by simp [stubSolver])]
    norm_num [stubSolver, partial_sort, selectBest, sortDescBySecond, Score.gt]
    rfl

/-- C8, as amended, on two keys and three values. -/
theorem predict_accepts_longer_values_witness :
    StdPartialSort (sortDescBySecond : Int × Score ℚ → Int × Score ℚ → Bool)
        (partial_sort sortDescBySecond) ∧
      [(5 : Int), 6].length ≤ [(2 : Int), 1, 7].length ∧
      (∀ m, buildMatrix [10, 20, 30] [5, 6] [2, 1, 7] = .ok m →
        (stubSolver.score m).length = [(10 : Int), 20, 30].length) ∧
      (0 : Int) ≤ 2 ∧
      ∃ (m : DMatrix) (out : List (Int × Score ℚ)),
        buildMatrix [10, 20, 30] [5, 6] (([2, 1, 7] : List Int).take [(5 : Int), 6].length) =
          .ok m ∧
        predict true (partial_sort sortDescBySecond) stubSolver [10, 20, 30] [5, 6]
            [2, 1, 7] 2 =
          .ok ({ score := stubSolver.score, dataset := some m,
                 result := stubSolver.score m }, some out) :=
  ⟨partial_sort_spec _, by decide, fun _ _ => rfl, by decide,
    predict_accepts_longer_values (partial_sort sortDescBySecond) (partial_sort_spec _)
      stubSolver [10, 20, 30] [5, 6] [2, 1, 7] 2 (by decide) (fun _ _ => rfl) (by decide)⟩

/-- C10 on the end-to-end scenario. -/
theorem predict_in_bounds_witness :
    StdPartialSort (sortDescBySecond : Int × Score ℚ → Int × Score ℚ → Bool)
        (partial_sort sortDescBySecond) ∧
      [(5 : Int), 6].length ≤ [(2 : Int), 1].length ∧
      (∀ m, buildMatrix [10, 20, 30] [5, 6] [2, 1] = .ok m →
        (stubSolver.score m).length = [(10 : Int), 20, 30].length) ∧
      (0 : Int) ≤ 2 ∧
      ∃ (m : DMatrix) (pairs sorted out : List (Int × Score ℚ)),
        buildMatrix [10, 20, 30] [5, 6] [2, 1] = .ok m ∧
        pairScores [10, 20, 30] (stubSolver.score m) = .ok pairs ∧
        0 ≤ topSize 2 [(10 : Int), 20, 30].length ∧
        topSize 2 [(10 : Int), 20, 30].length ≤ (pairs.length : Int) ∧
        sortStep (partial_sort sortDescBySecond) pairs
          (topSize 2 [(10 : Int), 20, 30].length) = .ok sorted ∧
        outputLoop sorted (topSize 2 [(10 : Int), 20, 30].length) = .ok out ∧
        ∃ r, predict true (partial_sort sortDescBySecond) stubSolver [10, 20, 30] [5, 6]
          [2, 1] 2 = .ok r :=
  ⟨partial_sort_spec _, by decide, fun _ _ => rfl, by decide,
    predict_in_bounds true (partial_sort sortDescBySecond) (partial_sort_spec _)
      stubSolver [10, 20, 30] [5, 6] [2, 1] 2 (by decide) (fun _ _ => rfl) (by decide)⟩

end XLearn
